import Mathlib

/-!
Verification of the single-layer neural network core of `cognitio`
(`src/neuron.rs`), shallowly embedded over the reals.

Vectors (`land::Vector<f64>`) are modelled as lists of reals; matrices
(`land::Matrix<f64>`) as lists of row vectors.  The arithmetic primitives
(matrix-vector product, transpose, elementwise operations with scalar
broadcasting) come from the external `land` linear-algebra crate and are
modelled with their standard elementwise semantics.  The `unimplemented!()
panic of the `CrossEntropy` loss variant is modelled by `Option`: a `none`
result marks the fatal abort, and `NeuronLayer.backpropagation` returns the
layer state as it stands when the call finishes or aborts.
-/

namespace Cognitio

abbrev Vec := List ℝ

abbrev Mat := List (List ℝ)

/-- Dot product of two vectors (the row-by-vector step of `land`'s
`&Matrix * &Vector`). -/
def dot (u v : Vec) : ℝ := (List.zipWith (fun a b => a * b) u v).sum

/-- Matrix-vector product `&m * v` from `land`. -/
def matVecMul (m : Mat) (v : Vec) : Vec := m.map (fun row => dot row v)

/-- Elementwise vector addition `u + v`. -/
def vecAdd (u v : Vec) : Vec := List.zipWith (fun a b => a + b) u v

/-- Elementwise vector subtraction `u - v`. -/
def vecSub (u v : Vec) : Vec := List.zipWith (fun a b => a - b) u v

/-- Elementwise vector product `u * v`. -/
def vecMul (u v : Vec) : Vec := List.zipWith (fun a b => a * b) u v

/-- Matrix transpose `m.transpose()`: entry `(i, j)` of the result is entry
`(j, i)` of `m`.  On the well-formed (rectangular) matrices the layer uses,
this is the usual transpose. -/
def transpose (m : Mat) : Mat :=
  (List.range ((m.headD []).length)).map (fun j => m.map (fun row => row.getD j 0))

/-- Outer product `u.mul_transpose(v)` from `land`: `u` as a column times
`v` as a row, so row `i` of the result is `u[i] • v`. -/
def mul_transpose (u v : Vec) : Mat := u.map (fun a => v.map (fun b => a * b))

/-- Scalar times matrix, elementwise (`learning_rate * corr`). -/
def smulMat (c : ℝ) (m : Mat) : Mat := m.map (fun row => row.map (fun a => c * a))

/-- Elementwise matrix subtraction (`self.weights -= ...`). -/
def matSub (m n : Mat) : Mat := List.zipWith vecSub m n

/-- The shape of a matrix: the length of each row (the number of rows is the
length of the shape list). -/
def matShape (m : Mat) : List ℕ := m.map List.length

/-- `f64::signum` on the reals.  (Rust maps `+0.0` to `1.0`; the single real
zero is treated like `+0.0`.) -/
noncomputable def signum (a : ℝ) : ℝ := if a < 0 then -1 else 1

/-- `Activation` enum, `src/neuron.rs` lines 14-19. -/
inductive Activation
  | Sigmoid
  | RectifiedLinearUnit
  | Softplus
deriving DecidableEq

/-- `LossFunction` enum, `src/neuron.rs` lines 21-25. -/
inductive LossFunction
  | SquaredError
  | CrossEntropy
deriving DecidableEq

/-- `WeightedDeltas` newtype, `src/neuron.rs` line 51. -/
structure WeightedDeltas where
  vec : Vec

/-- `Adjustment` enum, `src/neuron.rs` lines 41-48. -/
inductive Adjustment
  | Target (target : Vec)
  | Deltas (deltas : WeightedDeltas)

/-- `Propagation` record, `src/neuron.rs` lines 27-39. -/
structure Propagation where
  input : Vec
  output : Vec
  adjustment : Adjustment
  learning_rate : ℝ

/-- `NeuronLayer` struct, `src/neuron.rs` lines 6-12. -/
structure NeuronLayer where
  weights : Mat
  basis : Vec
  activation : Activation
  loss : LossFunction

/-- `Activation::apply`, `src/neuron.rs` lines 84-92, elementwise:
* `Sigmoid => ((-x).exp() + 1.0).recip()`
* `RectifiedLinearUnit => x.clone().max(0.0)`
* `Softplus => (1.0 + x).ln()`  (note: no `.exp()` in the source). -/
noncomputable def Activation.apply : Activation → Vec → Vec
  | .Sigmoid, x => x.map (fun a => (Real.exp (-a) + 1)⁻¹)
  | .RectifiedLinearUnit, x => x.map (fun a => max a 0)
  | .Softplus, x => x.map (fun a => Real.log (1 + a))

/-- `Activation::derivative`, `src/neuron.rs` lines 94-105, elementwise:
* `Sigmoid => { let sigmoid = self.apply(x); sigmoid * (1.0 - sigmoid) }`
* `RectifiedLinearUnit => x.clone().signum().max(0.0)`
* `Softplus => ((-x).exp() + 1.0).recip()`. -/
noncomputable def Activation.derivative : Activation → Vec → Vec
  | .Sigmoid, x =>
      let sigmoid := Activation.apply .Sigmoid x
      vecMul sigmoid (sigmoid.map (fun a => 1 - a))
  | .RectifiedLinearUnit, x => x.map (fun a => max (signum a) 0)
  | .Softplus, x => x.map (fun a => (Real.exp (-a) + 1)⁻¹)

/-- `LossFunction::error`, `src/neuron.rs` lines 109-115.
`CrossEntropy` is `unimplemented!()`: the fatal panic is modelled as `none`. -/
noncomputable def LossFunction.error : LossFunction → Vec → Vec → Option Vec
  | .SquaredError, target, actual =>
      some ((vecSub target actual).map (fun d => d ^ 2 / 2))
  | .CrossEntropy, _, _ => none

/-- `LossFunction::derivative`, `src/neuron.rs` lines 117-123.
`CrossEntropy` is `unimplemented!()`: the fatal panic is modelled as `none`. -/
def LossFunction.derivative : LossFunction → Vec → Vec → Option Vec
  | .SquaredError, target, actual => some (vecSub actual target)
  | .CrossEntropy, _, _ => none

/-- `NeuronLayer::propagate`, `src/neuron.rs` lines 55-59:
`net_output = &weights * input + &basis; output = activation.apply(net_output)`.
Takes the layer by shared reference (`&self`): it cannot mutate the layer, so
the embedding returns only the output vector. -/
noncomputable def NeuronLayer.propagate (l : NeuronLayer) (input : Vec) : Vec :=
  let net_output := vecAdd (matVecMul l.weights input) l.basis
  let output := Activation.apply l.activation net_output
  output

/-- The `deltas` match of `NeuronLayer::backpropagation`,
`src/neuron.rs` lines 63-72.  The `Target` arm calls `loss.derivative`,
which panics (`none`) on `CrossEntropy`; the `Deltas` arm never touches the
loss function. -/
noncomputable def computeDeltas (l : NeuronLayer) (p : Propagation) : Option Vec :=
  match p.adjustment with
  | .Target target =>
      (LossFunction.derivative l.loss target p.output).map
        (fun ld => vecMul ld (Activation.derivative l.activation p.output))
  | .Deltas ⟨deltas⟩ =>
      some (vecMul deltas (Activation.derivative l.activation p.output))

/-- `NeuronLayer::backpropagation`, `src/neuron.rs` lines 62-80.  Returns the
layer state after the call together with the result.  If the `deltas` match
panics (`computeDeltas = none`), the panic happens before any other statement
of the function body, so the layer is returned unchanged with no result.
Otherwise, in source order: `weighted_deltas = &weights.transpose() * &deltas`
(read from the not-yet-updated weights), `corr = deltas.mul_transpose(&input)`,
then the only mutation `weights -= learning_rate * corr`, and the return value
`WeightedDeltas(weighted_deltas)`. -/
noncomputable def NeuronLayer.backpropagation (l : NeuronLayer) (p : Propagation) :
    NeuronLayer × Option WeightedDeltas :=
  match computeDeltas l p with
  | none => (l, none)
  | some deltas =>
      let weighted_deltas := matVecMul (transpose l.weights) deltas
      let corr := mul_transpose deltas p.input
      ({ l with weights := matSub l.weights (smulMat p.learning_rate corr) },
        some ⟨weighted_deltas⟩)

/-! ### Helper lemmas -/

/-- Entry `i` of a `zipWith` of two vectors. -/
theorem zipWith_entry (f : ℝ → ℝ → ℝ) (u v : Vec) (i : ℕ)
    (h : i < (List.zipWith f u v).length) :
    (List.zipWith f u v)[i] = f (u.getD i 0) (v.getD i 0) := by
  rw [List.getElem_zipWith]
  rw [List.length_zipWith] at h
  rw [List.getD_eq_getElem, List.getD_eq_getElem]

/-- Every activation function maps a vector to one of the same length. -/
theorem apply_length (a : Activation) (v : Vec) :
    (Activation.apply a v).length = v.length := by
  cases a <;> simp [Activation.apply, Activation.derivative, vecMul]

/-! ### Claims -/

/-- C1: for a layer with matching dimensions, `backpropagation` computes
`deltas` as the loss derivative (for `Target`) or the incoming deltas (for
`Deltas`) times, elementwise, the activation derivative at the activated
output; returns `WeightedDeltas(transpose(weights) · deltas)` computed from
the pre-update weights; updates the weights in place to
`weights - learning_rate · (deltas ⊗ input^T)`; and the outer product
`deltas ⊗ input^T` has the same shape as `weights`. -/
theorem backpropagation_correct (l : NeuronLayer) (p : Propagation) (deltas : Vec)
    (hdeltas : computeDeltas l p = some deltas)
    (hrows : l.weights.length = p.output.length)
    (hcols : ∀ r ∈ l.weights, r.length = p.input.length)
    (hdl : deltas.length = p.output.length) :
    (∀ t, p.adjustment = .Target t →
        ∃ ld, LossFunction.derivative l.loss t p.output = some ld ∧
          deltas = vecMul ld (Activation.derivative l.activation p.output)) ∧
    (∀ d, p.adjustment = .Deltas d →
        deltas = vecMul d.vec (Activation.derivative l.activation p.output)) ∧
    NeuronLayer.backpropagation l p =
      ({ l with weights := (matSub l.weights
            (smulMat p.learning_rate (mul_transpose deltas p.input))) },
        some ⟨matVecMul (transpose l.weights) deltas⟩) ∧
    matShape (mul_transpose deltas p.input) = matShape l.weights := by
  refine ⟨?_, ?_, ?_, ?_⟩
  · intro t ht
    unfold computeDeltas at hdeltas
    rw [ht] at hdeltas
    simp only [Option.map_eq_some'] at hdeltas
    obtain ⟨ld, hld, hmap⟩ := hdeltas
    exact ⟨ld, hld, hmap.symm⟩
  · intro d hd
    unfold computeDeltas at hdeltas
    rw [hd] at hdeltas
    simp only [Option.some.injEq] at hdeltas
    exact hdeltas.symm
  · unfold NeuronLayer.backpropagation
    rw [hdeltas]
  · have h1 : matShape (mul_transpose deltas p.input)
        = List.replicate deltas.length p.input.length := by
      simp [matShape, mul_transpose, List.map_map, Function.comp_def]
    have h2 : matShape l.weights
        = List.replicate l.weights.length p.input.length := by
      rw [matShape, List.eq_replicate_iff]
      refine ⟨by simp, ?_⟩
      intro b hb
      simp only [List.mem_map] at hb
      obtain ⟨r, hr, rfl⟩ := hb
      exact hcols r hr
    rw [h1, h2, hdl, hrows]

/-- Witness for C1: a concrete 1×1 rectified-linear layer with a `Deltas`
adjustment; the deltas evaluate to `[1]`, the upstream signal to `[1]`, and
the weights update from `[[1]]` to `[[0]]`. -/
theorem backpropagation_correct_witness :
    NeuronLayer.backpropagation ⟨[[1]], [0], .RectifiedLinearUnit, .SquaredError⟩
        ⟨[1], [1], .Deltas ⟨[1]⟩, (1:ℝ)⟩
      = (⟨[[0]], [0], .RectifiedLinearUnit, .SquaredError⟩, some ⟨[1]⟩) := by
  have h := (backpropagation_correct
      ⟨[[1]], [0], .RectifiedLinearUnit, .SquaredError⟩
      ⟨[1], [1], .Deltas ⟨[1]⟩, (1:ℝ)⟩ [1]
      (by norm_num [computeDeltas, Activation.derivative, vecMul, signum])
      (by norm_num) (by norm_num) (by norm_num)).2.2.1
  rw [h]
  norm_num [matSub, smulMat, mul_transpose, vecSub, matVecMul, transpose, dot,
    List.range_succ, List.getD]

/-- C2: the claim reads `Softplus.apply(x) = ln(1 + e^x)` elementwise, but the
source (`src/neuron.rs` line 90) computes `(1.0 + x).ln()`, that is
`ln(1 + x)` with no exponential.  At `x = [0]` the code yields `[ln 1] = [0]`
while `ln(1 + e^0) = ln 2 > 0`. -/
theorem softplus_apply_mismatch :
    Activation.apply .Softplus [(0:ℝ)] = [0] ∧ 0 < Real.log (1 + Real.exp 0) := by
  constructor
  · norm_num [Activation.apply]
  · rw [Real.exp_zero]
    exact Real.log_pos (by norm_num)

/-- C3: the claim reads `Sigmoid.derivative(x) = x ⊙ (1 - x)` ("not by
applying sigmoid to it again"), but the source (`src/neuron.rs` lines 96-98)
recomputes `sigmoid(x)` and returns `sigmoid(x) ⊙ (1 - sigmoid(x))`.  At
`x = [0]` the code yields `[σ(0)·(1-σ(0))] = [1/4]`, while the claimed
formula `x ⊙ (1 - x)` yields `[0]`, and `0 < 1/4`. -/
theorem sigmoid_derivative_mismatch :
    Activation.derivative .Sigmoid [(0:ℝ)] = [1/4] ∧
    vecMul [(0:ℝ)] ([(0:ℝ)].map (fun a => 1 - a)) = [0] ∧
    (0:ℝ) < 1/4 := by
  refine ⟨?_, by norm_num [vecMul], by norm_num⟩
  norm_num [Activation.derivative, Activation.apply, vecMul, Real.exp_zero]

/-- C4: `propagate` equals `activation.apply(weights · x + bias)` and its
length is the layer's output dimension (the number of weight rows).  The
layer is taken by shared reference, so weights, bias, activation and loss are
unchanged by construction: the embedding of `propagate` is a pure function
which returns only the output vector. -/
theorem propagate_spec (l : NeuronLayer) (input : Vec)
    (hin : ∀ r ∈ l.weights, r.length = input.length)
    (hb : l.basis.length = l.weights.length) :
    NeuronLayer.propagate l input
      = Activation.apply l.activation (vecAdd (matVecMul l.weights input) l.basis) ∧
    (NeuronLayer.propagate l input).length = l.weights.length := by
  refine ⟨rfl, ?_⟩
  rw [NeuronLayer.propagate]
  simp [apply_length, vecAdd, matVecMul, hb]

/-- Witness for C4 at the test layer of `src/neuron.rs` (weights `[[1,2]]`,
bias `[0]`, sigmoid activation) on input `[0.4, -0.1]`. -/
theorem propagate_spec_witness :
    NeuronLayer.propagate ⟨[[1, 2]], [0], .Sigmoid, .SquaredError⟩ [0.4, -0.1]
      = Activation.apply .Sigmoid (vecAdd (matVecMul [[1, 2]] [0.4, -0.1]) [0]) ∧
    (NeuronLayer.propagate ⟨[[1, 2]], [0], .Sigmoid, .SquaredError⟩ [0.4, -0.1]).length
      = 1 :=
  propagate_spec ⟨[[1, 2]], [0], .Sigmoid, .SquaredError⟩ [0.4, -0.1]
    (by norm_num) (by norm_num)

/-- C5: the Sigmoid and RectifiedLinearUnit parts hold, but the Softplus part
fails on the source: because `Softplus.apply` computes `ln(1 + x)` instead of
`ln(1 + e^x)` (`src/neuron.rs` line 90), the Softplus layer `[[1]]`, bias
`[0]` on input `[0]` produces the output `[0]`, whose entry is not `> 0`
(the intended softplus of the net input `0` would be `ln(1 + e^0) > 0`). -/
theorem softplus_positivity_fails :
    NeuronLayer.propagate ⟨[[1]], [0], .Softplus, .SquaredError⟩ [0] = [0] ∧
    0 < Real.log (1 + Real.exp 0) := by
  constructor
  · norm_num [NeuronLayer.propagate, Activation.apply, matVecMul, vecAdd, dot]
  · rw [Real.exp_zero]
    exact Real.log_pos (by norm_num)

/-- C6: `backpropagation` is atomic on failure: if the call aborts (the
`unimplemented!()` panic of the CrossEntropy loss derivative, reached only
through the `Target` arm and before any other statement of the body), the
layer — in particular its weights — is exactly as it was before the call. -/
theorem backpropagation_atomic (l : NeuronLayer) (p : Propagation)
    (h : (NeuronLayer.backpropagation l p).2 = none) :
    (NeuronLayer.backpropagation l p).1 = l := by
  unfold NeuronLayer.backpropagation at *
  cases hd : computeDeltas l p with
  | none => simp [hd]
  | some d =>
    rw [hd] at h
    simp at h

/-- Witness for C6: a CrossEntropy layer with a `Target` adjustment aborts
and the layer is returned unchanged. -/
theorem backpropagation_atomic_witness :
    (NeuronLayer.backpropagation ⟨[[1]], [0], .Sigmoid, .CrossEntropy⟩
        ⟨[0], [0], .Target [0], (1:ℝ)⟩).1
      = ⟨[[1]], [0], .Sigmoid, .CrossEntropy⟩ :=
  backpropagation_atomic ⟨[[1]], [0], .Sigmoid, .CrossEntropy⟩
    ⟨[0], [0], .Target [0], (1:ℝ)⟩ rfl

/-- C7: a completed `backpropagation` call mutates only the weights: the bias
vector and the activation and loss variants are unchanged, for every
adjustment variant and every learning rate. -/
theorem backpropagation_frame (l : NeuronLayer) (p : Propagation) (w : WeightedDeltas)
    (h : (NeuronLayer.backpropagation l p).2 = some w) :
    (NeuronLayer.backpropagation l p).1.basis = l.basis ∧
    (NeuronLayer.backpropagation l p).1.activation = l.activation ∧
    (NeuronLayer.backpropagation l p).1.loss = l.loss := by
  unfold NeuronLayer.backpropagation
  cases hd : computeDeltas l p <;> simp

/-- Witness for C7: the concrete completed call of the C1 witness leaves
bias, activation and loss unchanged. -/
theorem backpropagation_frame_witness :
    (NeuronLayer.backpropagation ⟨[[1]], [0], .RectifiedLinearUnit, .SquaredError⟩
        ⟨[1], [1], .Deltas ⟨[1]⟩, (1:ℝ)⟩).1.basis = [0] ∧
    (NeuronLayer.backpropagation ⟨[[1]], [0], .RectifiedLinearUnit, .SquaredError⟩
        ⟨[1], [1], .Deltas ⟨[1]⟩, (1:ℝ)⟩).1.activation = .RectifiedLinearUnit ∧
    (NeuronLayer.backpropagation ⟨[[1]], [0], .RectifiedLinearUnit, .SquaredError⟩
        ⟨[1], [1], .Deltas ⟨[1]⟩, (1:ℝ)⟩).1.loss = .SquaredError :=
  backpropagation_frame ⟨[[1]], [0], .RectifiedLinearUnit, .SquaredError⟩
    ⟨[1], [1], .Deltas ⟨[1]⟩, (1:ℝ)⟩ ⟨[1]⟩
    (by norm_num [NeuronLayer.backpropagation, computeDeltas, Activation.derivative,
      vecMul, signum, matVecMul, transpose, dot, List.range_succ, List.getD])

/-- C8: for every pair of vectors, CrossEntropy's `error` and `derivative`
abort (`none`, the `unimplemented!()` panic) rather than return a numeric
result, while SquaredError's `error` returns `(target - actual)^2 / 2`
elementwise and its `derivative` returns `actual - target` elementwise. -/
theorem lossFunction_spec (target actual : Vec) :
    LossFunction.error .CrossEntropy target actual = none ∧
    LossFunction.derivative .CrossEntropy target actual = none ∧
    (∃ e, LossFunction.error .SquaredError target actual = some e ∧
      e.length = min target.length actual.length ∧
      ∀ i (hi : i < e.length),
        e.get ⟨i, hi⟩ = (target.getD i 0 - actual.getD i 0) ^ 2 / 2) ∧
    (∃ d, LossFunction.derivative .SquaredError target actual = some d ∧
      d.length = min target.length actual.length ∧
      ∀ i (hi : i < d.length),
        d.get ⟨i, hi⟩ = actual.getD i 0 - target.getD i 0) := by
  refine ⟨rfl, rfl, ⟨_, rfl, ?_, ?_⟩, ⟨_, rfl, ?_, ?_⟩⟩
  · simp [vecSub]
  · intro i hi
    rw [List.get_eq_getElem, List.getElem_map]
    simp only [vecSub]
    rw [zipWith_entry]
  · simp [vecSub]
    exact Nat.min_comm _ _
  · intro i hi
    rw [List.get_eq_getElem]
    simp only [vecSub]
    rw [zipWith_entry]

/-- Witness for C8 at `target = [1]`, `actual = [2]`: CrossEntropy aborts and
the SquaredError derivative's single entry is `2 - 1 = 1`. -/
theorem lossFunction_spec_witness :
    LossFunction.error .CrossEntropy [(1:ℝ)] [2] = none ∧
    ∃ d, LossFunction.derivative .SquaredError [(1:ℝ)] [2] = some d ∧
      ∃ hl : 0 < d.length, d.get ⟨0, hl⟩ = 1 := by
  obtain ⟨h1, -, -, d, hd, hlen, hget⟩ := lossFunction_spec [(1:ℝ)] [2]
  have hl : 0 < d.length := by rw [hlen]; norm_num
  refine ⟨h1, d, hd, hl, ?_⟩
  rw [hget 0 hl]
  norm_num [List.getD]

/-- C9: on the literal test scenario of `src/neuron.rs` (weights `[[1, 2]]`,
bias `[0]`, sigmoid, squared error, input `[0.4, -0.1]`), `propagate` returns
the one-entry vector `[1 / (1 + e^(-0.2))]`, whose entry is within `5e-5` of
`0.5498`. -/
theorem propagate_literal_scenario :
    NeuronLayer.propagate ⟨[[1, 2]], [0], .Sigmoid, .SquaredError⟩ [0.4, -0.1]
      = [1 / (1 + Real.exp (-(0.2:ℝ)))] ∧
    |1 / (1 + Real.exp (-(0.2:ℝ))) - 0.5498| ≤ 5e-5 := by
  constructor
  · norm_num [NeuronLayer.propagate, Activation.apply, matVecMul, vecAdd, dot]
    rw [one_div, add_comm]
  · have hb : |Real.exp (-(1/5:ℝ)) - 12281/15000| ≤ 1/312500 := by
      have h := @Real.exp_bound (-(1/5:ℝ))
        (by rw [abs_neg, abs_of_nonneg] <;> norm_num) 5 (by norm_num)
      have hs : ∑ i ∈ Finset.range 5, (-(1/5:ℝ)) ^ i / i.factorial
          = 12281/15000 := by
        simp [Finset.sum_range_succ, Nat.factorial]
        norm_num
      rw [hs] at h
      calc |Real.exp (-(1/5:ℝ)) - 12281/15000|
          ≤ |(-(1/5:ℝ))| ^ 5 * ((5:ℕ).succ / ((5:ℕ).factorial * 5)) := h
        _ ≤ 1/312500 := by rw [abs_neg, abs_of_nonneg] <;> norm_num [Nat.factorial]
    have he : (-(0.2:ℝ)) = -(1/5:ℝ) := by norm_num
    rw [he]
    set t := Real.exp (-(1/5:ℝ)) with ht
    have h1 := abs_le.mp hb
    have htpos : (0:ℝ) < 1 + t := by
      have := Real.exp_pos (-(1/5:ℝ))
      linarith
    have hinv : (1 + t) * (1 + t)⁻¹ = 1 := mul_inv_cancel₀ (ne_of_gt htpos)
    have hu : (0:ℝ) < (1 + t)⁻¹ := inv_pos.mpr htpos
    rw [one_div, abs_le]
    constructor <;> nlinarith [hinv, hu, h1.1, h1.2]

/-- C10: a `backpropagation` call whose adjustment is `Deltas(d)` (the
hidden-layer path) never reaches the loss function's `derivative` or `error`
— its `deltas` arm uses only the activation derivative — so even on a
CrossEntropy layer it completes normally and returns a `WeightedDeltas`
result. -/
theorem backpropagation_deltas_path (l : NeuronLayer) (p : Propagation)
    (d : WeightedDeltas) (hloss : l.loss = .CrossEntropy)
    (hadj : p.adjustment = .Deltas d) :
    NeuronLayer.backpropagation l p
      = ({ l with weights := (matSub l.weights (smulMat p.learning_rate
            (mul_transpose (vecMul d.vec (Activation.derivative l.activation p.output))
              p.input))) },
        some ⟨matVecMul (transpose l.weights)
          (vecMul d.vec (Activation.derivative l.activation p.output))⟩) := by
  unfold NeuronLayer.backpropagation computeDeltas
  rw [hadj]

/-- Witness for C10: a concrete CrossEntropy layer with a `Deltas` adjustment
completes and returns the upstream signal `[1]`. -/
theorem backpropagation_deltas_path_witness :
    NeuronLayer.backpropagation ⟨[[1]], [0], .RectifiedLinearUnit, .CrossEntropy⟩
        ⟨[1], [1], .Deltas ⟨[1]⟩, (1:ℝ)⟩
      = (⟨[[0]], [0], .RectifiedLinearUnit, .CrossEntropy⟩, some ⟨[1]⟩) := by
  have h := backpropagation_deltas_path
    ⟨[[1]], [0], .RectifiedLinearUnit, .CrossEntropy⟩
    ⟨[1], [1], .Deltas ⟨[1]⟩, (1:ℝ)⟩ ⟨[1]⟩ rfl rfl
  rw [h]
  norm_num [matSub, smulMat, mul_transpose, vecSub, matVecMul, transpose, dot,
    vecMul, Activation.derivative, signum, List.range_succ, List.getD]

end Cognitio
